import Mathlib

/-!
Verification of the Crazy Eights game logic.

The data model follows `src/types.ts`; the game operations are a shallow
embedding of the handlers in the main application file (`initGame`,
`isValidMove`, `checkWin`, `handleDraw`, `playCard`, `handleSuitSelect`,
the AI turn effect and the suit-selection heuristic).  React state updates
(`setGameState`) are modelled by explicit state passing: each handler is a
pure function from the game state to the next game state, paired with the
message it would surface.  UI-level gating (a card click being disabled, the
suit selector only being rendered in `suit_selection` status) is modelled by
intent wrappers that guard the raw handlers exactly as the component does.
-/

set_option autoImplicit false

/-- The four suits, as in `src/types.ts`. -/
inductive Suit
  | hearts
  | diamonds
  | clubs
  | spades
deriving DecidableEq, Fintype

/-- The thirteen ranks A,2..10,J,Q,K, as in `src/types.ts`. -/
inductive Rank
  | rA
  | r2
  | r3
  | r4
  | r5
  | r6
  | r7
  | r8
  | r9
  | r10
  | rJ
  | rQ
  | rK
deriving DecidableEq

/-- A playing card: unique string identity, suit and rank (`src/types.ts`). -/
structure Card where
  id : String
  suit : Suit
  rank : Rank
deriving DecidableEq

/-- Whose turn it is: `'player' | 'ai'`. -/
inductive Turn
  | player
  | ai
deriving DecidableEq

/-- Game status: `'waiting' | 'playing' | 'suit_selection' | 'game_over'`. -/
inductive Status
  | waiting
  | playing
  | suit_selection
  | game_over
deriving DecidableEq

/-- The aggregate game state (`GameState` in `src/types.ts`). -/
structure GameState where
  deck : List Card
  discardPile : List Card
  playerHand : List Card
  aiHand : List Card
  currentTurn : Turn
  status : Status
  winner : Option Turn
  activeSuit : Option Suit
deriving DecidableEq

/-- The suit enumeration order hearts, diamonds, clubs, spades, as in the
`suitCounts` record literal of the AI logic and the `SUITS` constant. -/
def SUITS : List Suit := [Suit.hearts, Suit.diamonds, Suit.clubs, Suit.spades]

/-- The thirteen ranks in their enumeration order. -/
def RANKS : List Rank :=
  [Rank.rA, Rank.r2, Rank.r3, Rank.r4, Rank.r5, Rank.r6, Rank.r7, Rank.r8,
   Rank.r9, Rank.r10, Rank.rJ, Rank.rQ, Rank.rK]

/-- Short code used to build card identifiers. -/
def suitCode : Suit → String
  | Suit.hearts => "h"
  | Suit.diamonds => "d"
  | Suit.clubs => "c"
  | Suit.spades => "s"

/-- Short code used to build card identifiers. -/
def rankCode : Rank → String
  | Rank.rA => "A"
  | Rank.r2 => "2"
  | Rank.r3 => "3"
  | Rank.r4 => "4"
  | Rank.r5 => "5"
  | Rank.r6 => "6"
  | Rank.r7 => "7"
  | Rank.r8 => "8"
  | Rank.r9 => "9"
  | Rank.r10 => "10"
  | Rank.rJ => "J"
  | Rank.rQ => "Q"
  | Rank.rK => "K"

/-- Modelled from the spec: `createDeck` lives in `src/constants.ts`, which is
not among the provided sources.  Spec section 4.1: "produces the 52
combinations of 4 suits × 13 ranks, each tagged with a unique identifier;
deterministic ordering (suit-major or rank-major, consistent)". -/
def createDeck : List Card :=
  (SUITS.map (fun su =>
    RANKS.map (fun r => { id := suitCode su ++ rankCode r, suit := su, rank := r }))).flatten

/-- The top of the discard pile: `discardPile[discardPile.length - 1]`. -/
def topDiscard (s : GameState) : Option Card :=
  s.discardPile.getLast?

/-- Embedding of `isValidMove`: an 8 is always accepted; otherwise with no top
discard the answer is false; otherwise the card must match the active suit or
the top discard rank. -/
def isValidMove (s : GameState) (card : Card) : Bool :=
  if card.rank = Rank.r8 then true
  else
    match topDiscard s with
    | none => false
    | some t => decide (s.activeSuit = some card.suit) || decide (card.rank = t.rank)

/-- Embedding of `hand.filter(c => c.id !== card.id)`. -/
def removeById (hand : List Card) (cardId : String) : List Card :=
  hand.filter (fun c => decide (c.id ≠ cardId))

/-- Embedding of `playCard(card, isPlayer)` with `checkWin` folded in: the two
successive state updates of the source (the `checkWin` update that sets
`status`/`winner`, then the update that moves the card) compose into the
single state returned here.  The second component is the message surfaced by
`setMessage`, `none` when the handler sets no message. -/
def playCard (s : GameState) (card : Card) (isPlayer : Bool) : GameState × Option String :=
  if isValidMove s card = true then
    let newHand := removeById (if isPlayer then s.playerHand else s.aiHand) card.id
    let newDiscard := s.discardPile ++ [card]
    if card.rank = Rank.r8 then
      ({ s with
          discardPile := newDiscard
          playerHand := if isPlayer then newHand else s.playerHand
          aiHand := if isPlayer then s.aiHand else newHand
          status := if isPlayer then Status.suit_selection else s.status
          activeSuit := if isPlayer then s.activeSuit else none },
        if isPlayer then some "Crazy 8! Choose a new suit." else none)
    else if newHand.isEmpty then
      ({ s with
          discardPile := newDiscard
          playerHand := if isPlayer then newHand else s.playerHand
          aiHand := if isPlayer then s.aiHand else newHand
          status := Status.game_over
          winner := some (if isPlayer then Turn.player else Turn.ai) }, none)
    else
      ({ s with
          discardPile := newDiscard
          playerHand := if isPlayer then newHand else s.playerHand
          aiHand := if isPlayer then s.aiHand else newHand
          currentTurn := if isPlayer then Turn.ai else Turn.player
          activeSuit := some card.suit },
        some (if isPlayer then "AI turn next." else "Your turn!"))
  else
    (s, if isPlayer then some "Invalid move! Match suit or rank, or play an 8." else none)

/-- Embedding of `handleDraw`: guarded on the player's turn in `playing`
status; an empty deck passes the turn without drawing, otherwise the last
element of the deck array (`deck.pop()`) moves into the player hand. -/
def handleDraw (s : GameState) : GameState :=
  if s.currentTurn = Turn.player ∧ s.status = Status.playing then
    match s.deck.getLast? with
    | none => { s with currentTurn := Turn.ai }
    | some drawnCard =>
        { s with
            deck := s.deck.dropLast
            playerHand := s.playerHand ++ [drawnCard]
            currentTurn := Turn.ai }
  else s

/-- Embedding of `handleSuitSelect`: unconditionally sets the active suit,
returns to `playing` and passes the turn to the AI. -/
def handleSuitSelect (s : GameState) (suit : Suit) : GameState :=
  { s with activeSuit := some suit, status := Status.playing, currentTurn := Turn.ai }

/-- Embedding of the AI `suitCounts` tally: the number of AI-held cards of the
given suit whose id differs from the card being played. -/
def suitCounts (hand : List Card) (playedId : String) (su : Suit) : Nat :=
  (hand.filter (fun c => decide (c.id ≠ playedId ∧ c.suit = su))).length

/-- Embedding of the AI `bestSuit` reduce over `Object.keys(suitCounts)` in
the order hearts, diamonds, clubs, spades, keeping the accumulator only when
its count is strictly greater than the challenger's. -/
def bestSuit (counts : Suit → Nat) : Suit :=
  [Suit.diamonds, Suit.clubs, Suit.spades].foldl
    (fun a b => if counts a > counts b then a else b) Suit.hearts

/-- Embedding of `playableCards = gameState.aiHand.filter(isValidMove)`. -/
def playableCards (s : GameState) : List Card :=
  s.aiHand.filter (fun c => isValidMove s c)

/-- The card the AI decides to play: `nonEight || playableCards[0]`, or none
when no card is playable. -/
def aiChosenCard (s : GameState) : Option Card :=
  match playableCards s with
  | [] => none
  | first :: _ =>
    match (playableCards s).find? (fun c => decide (c.rank ≠ Rank.r8)) with
    | some c => some c
    | none => some first

/-- Embedding of the AI turn effect: guarded on the effect condition
`currentTurn === 'ai' && status === 'playing' && !winner`; plays the chosen
card (with the synchronous suit choice and win check for an 8), or draws the
last deck card, or skips. -/
def aiMove (s : GameState) : GameState × Option String :=
  if s.currentTurn = Turn.ai ∧ s.status = Status.playing ∧ s.winner = none then
    match aiChosenCard s with
    | some cardToPlay =>
      if cardToPlay.rank = Rank.r8 then
        let best := bestSuit (suitCounts s.aiHand cardToPlay.id)
        let newHand := removeById s.aiHand cardToPlay.id
        let newDiscard := s.discardPile ++ [cardToPlay]
        if newHand.isEmpty then
          ({ s with
              discardPile := newDiscard
              aiHand := newHand
              status := Status.game_over
              winner := some Turn.ai
              activeSuit := some best
              currentTurn := Turn.player }, some "AI played an 8 and chose a suit.")
        else
          ({ s with
              discardPile := newDiscard
              aiHand := newHand
              activeSuit := some best
              currentTurn := Turn.player }, some "AI played an 8 and chose a suit.")
      else
        playCard s cardToPlay false
    | none =>
      match s.deck.getLast? with
      | some drawnCard =>
          ({ s with
              deck := s.deck.dropLast
              aiHand := s.aiHand ++ [drawnCard]
              currentTurn := Turn.player }, some "AI drew a card. Your turn!")
      | none => ({ s with currentTurn := Turn.player }, some "AI skipped turn. Your turn!")
  else (s, none)

/-- Embedding of `fullDeck.findIndex(c => c.rank !== '8')`, as an option
instead of the sentinel -1. -/
def findNonEightIdx : List Card → Option Nat
  | [] => none
  | c :: rest =>
    if c.rank = Rank.r8 then (findNonEightIdx rest).map (fun i => i + 1)
    else some 0

/-- Embedding of `array.splice(idx, 1)`: first component is the removed
slice (a singleton, or empty when the index is out of range), second the
array after removal. -/
def spliceOne : List Card → Nat → List Card × List Card
  | [], _ => ([], [])
  | x :: xs, 0 => ([x], xs)
  | x :: xs, n + 1 =>
    let p := spliceOne xs n
    (p.1, x :: p.2)

/-- Embedding of `initGame` applied to an already-shuffled deck (`shuffleDeck`
is in the absent `src/constants.ts`; per the spec it returns a permutation of
its input, which the reachability relation quantifies over): deal 8 cards to
the player then 8 to the AI, find the first non-8 of the remainder (index 0
when there is none: the `-1` result is overwritten by `0` before the splice,
so the `pop()` alternative of the source ternary is unreachable), splice it
out as the starting discard.  The source reads `discardPile[0].suit`; here an
empty splice result yields `none`, where the source would throw. -/
def initGame (shuffled : List Card) : GameState :=
  let playerHand := shuffled.take 8
  let afterPlayer := shuffled.drop 8
  let aiHand := afterPlayer.take 8
  let fullDeck := afterPlayer.drop 8
  let firstDiscardIdx := match findNonEightIdx fullDeck with
    | some i => i
    | none => 0
  let sp := spliceOne fullDeck firstDiscardIdx
  { deck := sp.2
    discardPile := sp.1
    playerHand := playerHand
    aiHand := aiHand
    currentTurn := Turn.player
    status := Status.playing
    winner := none
    activeSuit := sp.1.head?.map Card.suit }

/-- The human play intent: the card click handler is attached only to cards of
the player hand and is disabled unless `currentTurn === 'player' &&
status === 'playing'`; an enabled click invokes `playCard(card, true)`. -/
def playerPlayIntent (s : GameState) (card : Card) : GameState × Option String :=
  if s.currentTurn = Turn.player ∧ s.status = Status.playing then playCard s card true
  else (s, none)

/-- The suit-selection intent: the suit selector is rendered only while
`status === 'suit_selection'`; a selection invokes `handleSuitSelect`. -/
def chooseSuitIntent (s : GameState) (suit : Suit) : GameState :=
  if s.status = Status.suit_selection then handleSuitSelect s suit else s

/-- All card slots of a state: deck, discard pile and both hands. -/
def cards (s : GameState) : List Card :=
  s.deck ++ s.discardPile ++ s.playerHand ++ s.aiHand

/-- One user-visible transition of the running game: a player draw click, a
player card click, the scheduled AI turn, or a suit selection. -/
inductive Step : GameState → GameState → Prop
  | draw (s : GameState) : Step s (handleDraw s)
  | play (s : GameState) (card : Card) (h : card ∈ s.playerHand) :
      Step s (playerPlayIntent s card).1
  | aiTurn (s : GameState) : Step s (aiMove s).1
  | choose (s : GameState) (suit : Suit) : Step s (chooseSuitIntent s suit)

/-- States reachable from initialization.  `shuffleDeck` (absent
`src/constants.ts`; spec section 4.1: a uniformly random permutation of its
input that never duplicates or drops cards) is modelled by quantifying over
all permutations of `createDeck`.  Restart re-enters through `init`. -/
inductive Reachable : GameState → Prop
  | init (d : List Card) (h : d.Perm createDeck) : Reachable (initGame d)
  | step (s s' : GameState) (h : Reachable s) (hs : Step s s') : Reachable s'

/-- Position of a suit in the enumeration order hearts, diamonds, clubs,
spades. -/
def suitIdx : Suit → Nat
  | Suit.hearts => 0
  | Suit.diamonds => 1
  | Suit.clubs => 2
  | Suit.spades => 3

/-- Convenience constructor for concrete test cards. -/
def cardOf (su : Suit) (r : Rank) : Card :=
  { id := suitCode su ++ rankCode r, suit := su, rank := r }

/-- A small mid-game position: queen of diamonds on top, diamonds active. -/
def stateA : GameState :=
  { deck := [cardOf Suit.clubs Rank.r2]
    discardPile := [cardOf Suit.diamonds Rank.rQ]
    playerHand := [cardOf Suit.hearts Rank.r7]
    aiHand := [cardOf Suit.spades Rank.r5]
    currentTurn := Turn.player
    status := Status.playing
    winner := none
    activeSuit := some Suit.diamonds }

/-- A position with an empty discard pile. -/
def stateNoDiscard : GameState :=
  { deck := []
    discardPile := []
    playerHand := [cardOf Suit.hearts Rank.r8]
    aiHand := []
    currentTurn := Turn.player
    status := Status.playing
    winner := none
    activeSuit := none }

/-- A position where the player holds a single 8 and it is playable. -/
def statePlayerLast8 : GameState :=
  { deck := []
    discardPile := [cardOf Suit.spades Rank.rA]
    playerHand := [cardOf Suit.hearts Rank.r8]
    aiHand := [cardOf Suit.clubs Rank.r5]
    currentTurn := Turn.player
    status := Status.playing
    winner := none
    activeSuit := some Suit.spades }

/-- An AI hand whose only playable card is an 8, with hearts and diamonds tied
as the most frequent remaining suits (two cards each). -/
def aiHandTie : List Card :=
  [cardOf Suit.clubs Rank.r8, cardOf Suit.hearts Rank.rA, cardOf Suit.hearts Rank.r2,
   cardOf Suit.diamonds Rank.rA, cardOf Suit.diamonds Rank.r2]

/-- An AI-to-move position where the AI must play its 8 from `aiHandTie`. -/
def stateAiEight : GameState :=
  { deck := []
    discardPile := [cardOf Suit.spades Rank.rK]
    playerHand := [cardOf Suit.clubs Rank.r3]
    aiHand := aiHandTie
    currentTurn := Turn.ai
    status := Status.playing
    winner := none
    activeSuit := some Suit.spades }

/-- An AI-to-move position with one playable non-8 card (five of spades). -/
def stateAiPlay : GameState :=
  { deck := [cardOf Suit.clubs Rank.r2]
    discardPile := [cardOf Suit.spades Rank.rK]
    playerHand := [cardOf Suit.hearts Rank.r7]
    aiHand := [cardOf Suit.hearts Rank.r3, cardOf Suit.spades Rank.r5]
    currentTurn := Turn.ai
    status := Status.playing
    winner := none
    activeSuit := some Suit.spades }

/-- An AI-to-move position with no playable card and a non-empty deck. -/
def stateAiDraw : GameState :=
  { deck := [cardOf Suit.clubs Rank.r2, cardOf Suit.clubs Rank.r4]
    discardPile := [cardOf Suit.spades Rank.rK]
    playerHand := [cardOf Suit.hearts Rank.r7]
    aiHand := [cardOf Suit.hearts Rank.r3]
    currentTurn := Turn.ai
    status := Status.playing
    winner := none
    activeSuit := some Suit.spades }

/-- An 18-card input deck whose post-deal remainder consists of two 8s only:
sixteen diamonds/clubs filler cards that are dealt into the hands, then the
8 of hearts and the 8 of spades. -/
def deckAllEights : List Card :=
  (createDeck.drop 13).take 16 ++ [cardOf Suit.hearts Rank.r8, cardOf Suit.spades Rank.r8]

/-! ## Basic facts about the rule engine -/

/-- C4: whenever a top discard card exists, `isValidMove` accepts a card
exactly when its rank is 8, or its suit equals the active suit, or its rank
equals the top discard's rank. -/
theorem isValidMove_iff_of_topDiscard (s : GameState) (card : Card) (t : Card)
    (h : topDiscard s = some t) :
    isValidMove s card = true ↔
      (card.rank = Rank.r8 ∨ s.activeSuit = some card.suit ∨ card.rank = t.rank) := by
  unfold isValidMove
  rw [h]
  by_cases h8 : card.rank = Rank.r8 <;> simp [h8]

theorem isValidMove_iff_of_topDiscard_witness :
    topDiscard stateA = some (cardOf Suit.diamonds Rank.rQ) ∧
    (isValidMove stateA (cardOf Suit.hearts Rank.r7) = true ↔
      ((cardOf Suit.hearts Rank.r7).rank = Rank.r8 ∨
        stateA.activeSuit = some (cardOf Suit.hearts Rank.r7).suit ∨
        (cardOf Suit.hearts Rank.r7).rank = (cardOf Suit.diamonds Rank.rQ).rank)) :=
  ⟨by decide,
    isValidMove_iff_of_topDiscard stateA (cardOf Suit.hearts Rank.r7)
      (cardOf Suit.diamonds Rank.rQ) (by decide)⟩

/-- C5 counterexample: with an empty discard pile, a card of rank 8 is
nonetheless accepted by `isValidMove`, so the claim that every card is
rejected when there is no top discard card is false. -/
theorem isValidMove_empty_discard_cex :
    topDiscard stateNoDiscard = none ∧
    isValidMove stateNoDiscard (cardOf Suit.hearts Rank.r8) = true := by
  decide

/-- C5 (amended): with no top discard card, `isValidMove` rejects every card
whose rank is not 8; a rank-8 card is accepted unconditionally. -/
theorem isValidMove_empty_discard_non_eight (s : GameState) (card : Card)
    (h1 : topDiscard s = none) (h2 : card.rank ≠ Rank.r8) :
    isValidMove s card = false := by
  unfold isValidMove
  rw [h1]
  simp [h2]

theorem isValidMove_empty_discard_non_eight_witness :
    topDiscard stateNoDiscard = none ∧
    isValidMove stateNoDiscard (cardOf Suit.clubs Rank.r7) = false :=
  ⟨by decide,
    isValidMove_empty_discard_non_eight stateNoDiscard (cardOf Suit.clubs Rank.r7)
      (by decide) (by decide)⟩

/-! ## Rejected actions are no-ops -/

/-- C7: a play attempt that is out of turn or made while the status disallows
playing never reaches `playCard` (the click is disabled) and changes nothing;
a play attempt whose card fails `isValidMove` leaves the state unchanged, and
the rejection message is surfaced only for the human actor (`playCard` with
`isPlayer = false` sets no message). -/
theorem rejected_play_is_noop (s : GameState) (card : Card) :
    (¬ (s.currentTurn = Turn.player ∧ s.status = Status.playing) →
      playerPlayIntent s card = (s, none)) ∧
    (isValidMove s card = false →
      (playerPlayIntent s card).1 = s ∧ playCard s card false = (s, none)) := by
  constructor
  · intro h
    unfold playerPlayIntent
    rw [if_neg h]
  · intro h
    constructor
    · unfold playerPlayIntent
      split
      · simp [playCard, h]
      · rfl
    · simp [playCard, h]

theorem rejected_play_is_noop_witness :
    playerPlayIntent { stateA with currentTurn := Turn.ai } (cardOf Suit.clubs Rank.r7) =
      ({ stateA with currentTurn := Turn.ai }, none) ∧
    (playerPlayIntent stateA (cardOf Suit.clubs Rank.r7)).1 = stateA ∧
    playCard stateA (cardOf Suit.clubs Rank.r7) false = (stateA, none) :=
  ⟨(rejected_play_is_noop { stateA with currentTurn := Turn.ai }
      (cardOf Suit.clubs Rank.r7)).1 (by decide),
    (rejected_play_is_noop stateA (cardOf Suit.clubs Rank.r7)).2 (by decide)⟩

/-- C8: the suit-selection intent is a no-op outside `suit_selection` status;
in `suit_selection` status it sets the active suit to the chosen suit, returns
the status to `playing`, passes the turn to the AI, and changes nothing
else. -/
theorem chooseSuit_behavior (s : GameState) (su : Suit) :
    (s.status ≠ Status.suit_selection → chooseSuitIntent s su = s) ∧
    (s.status = Status.suit_selection →
      chooseSuitIntent s su =
        { s with activeSuit := some su, status := Status.playing, currentTurn := Turn.ai }) := by
  constructor <;> intro h <;> simp [chooseSuitIntent, handleSuitSelect, h]

theorem chooseSuit_behavior_witness :
    chooseSuitIntent stateA Suit.clubs = stateA ∧
    chooseSuitIntent { stateA with status := Status.suit_selection } Suit.clubs =
      { stateA with
          status := Status.playing
          activeSuit := some Suit.clubs
          currentTurn := Turn.ai } :=
  ⟨(chooseSuit_behavior stateA Suit.clubs).1 (by decide),
    (chooseSuit_behavior { stateA with status := Status.suit_selection } Suit.clubs).2 (by decide)⟩

/-! ## The missing win check on a human 8 -/

/-- C1: evaluation of the code at the failing input.  The player's hand holds
a single playable 8; playing it empties the hand, yet the resulting status is
`suit_selection` rather than `game_over`, and no winner is set: the rank-8
branch of `playCard` never invokes `checkWin`, so a human who sheds the last
card with an 8 is not declared the winner, contradicting the win-detection
claim (and the in-game rule text that the first player to clear their hand
wins). -/
theorem player_last_eight_no_win :
    (playerPlayIntent statePlayerLast8 (cardOf Suit.hearts Rank.r8)).1.playerHand = [] ∧
    (playerPlayIntent statePlayerLast8 (cardOf Suit.hearts Rank.r8)).1.status =
      Status.suit_selection ∧
    (playerPlayIntent statePlayerLast8 (cardOf Suit.hearts Rank.r8)).1.winner = none := by
  decide

/-! ## The starting discard card -/

theorem findNonEightIdx_eq_none_iff (F : List Card) :
    findNonEightIdx F = none ↔ F.find? (fun c => decide (c.rank ≠ Rank.r8)) = none := by
  induction F with
  | nil => simp [findNonEightIdx]
  | cons x xs ih =>
    by_cases hx : x.rank = Rank.r8
    · rw [List.find?_cons_of_neg _ (by simp [hx])]
      simp [findNonEightIdx, hx, ih]
    · rw [List.find?_cons_of_pos _ (by simp [hx])]
      simp [findNonEightIdx, hx]

theorem spliceOne_fst_of_find? :
    ∀ (F : List Card) (i : Nat) (c : Card),
      findNonEightIdx F = some i →
      F.find? (fun c => decide (c.rank ≠ Rank.r8)) = some c →
      (spliceOne F i).1 = [c] := by
  intro F
  induction F with
  | nil => intro i c h _; simp [findNonEightIdx] at h
  | cons x xs ih =>
    intro i c hidx hfind
    by_cases hx : x.rank = Rank.r8
    · rw [List.find?_cons_of_neg _ (by simp [hx])] at hfind
      simp only [findNonEightIdx, hx, if_true, Option.map_eq_some'] at hidx
      obtain ⟨i', hi', rfl⟩ := hidx
      simpa [spliceOne] using ih i' c hi' hfind
    · rw [List.find?_cons_of_pos _ (by simp [hx])] at hfind
      simp only [findNonEightIdx, hx, if_false] at hidx
      obtain rfl : i = 0 := by injection hidx.symm
      obtain rfl : x = c := by injection hfind
      simp [spliceOne]

theorem spliceOne_fst_zero (F : List Card) : (spliceOne F 0).1 = F.take 1 := by
  cases F <;> simp [spliceOne]

/-- C2 counterexample: on an input deck whose post-deal remainder is the 8 of
hearts followed by the 8 of spades (all remaining cards of rank 8), the
starting discard is the first remaining card, not the last one as claimed:
`firstDiscardIdx` is overwritten from -1 to 0 before the splice, and the
`pop()` fallback of the source is dead code. -/
theorem initGame_all_eights_cex :
    (∀ c ∈ deckAllEights.drop 16, c.rank = Rank.r8) ∧
    (deckAllEights.drop 16).getLast? = some (cardOf Suit.spades Rank.r8) ∧
    (initGame deckAllEights).discardPile = [cardOf Suit.hearts Rank.r8] ∧
    cardOf Suit.hearts Rank.r8 ≠ cardOf Suit.spades Rank.r8 := by
  decide

/-- C2 (amended): after dealing 8 cards to each side, the starting discard is
the first card of the remaining deck whose rank is not 8; if every remaining
card has rank 8, the first card of the remaining deck is taken regardless of
rank. -/
theorem initGame_discard_selection (d : List Card) :
    (∀ c : Card, (d.drop 16).find? (fun c => decide (c.rank ≠ Rank.r8)) = some c →
      (initGame d).discardPile = [c]) ∧
    ((d.drop 16).find? (fun c => decide (c.rank ≠ Rank.r8)) = none →
      (initGame d).discardPile = (d.drop 16).take 1) := by
  have hdd : (d.drop 8).drop 8 = d.drop 16 := by
    rw [List.drop_drop]
  constructor
  · intro c hc
    obtain ⟨i, hi⟩ : ∃ i, findNonEightIdx (d.drop 16) = some i := by
      cases h : findNonEightIdx (d.drop 16) with
      | none =>
        rw [findNonEightIdx_eq_none_iff] at h
        rw [h] at hc
        cases hc
      | some i => exact ⟨i, rfl⟩
    unfold initGame
    simp only [hdd, hi]
    exact spliceOne_fst_of_find? _ i c hi hc
  · intro hnone
    have hidx := (findNonEightIdx_eq_none_iff _).mpr hnone
    unfold initGame
    simp only [hdd, hidx]
    exact spliceOne_fst_zero _

theorem initGame_discard_selection_witness :
    (initGame createDeck).discardPile = [cardOf Suit.diamonds Rank.r4] ∧
    (initGame deckAllEights).discardPile = (deckAllEights.drop 16).take 1 :=
  ⟨(initGame_discard_selection createDeck).1 (cardOf Suit.diamonds Rank.r4) (by decide),
    (initGame_discard_selection deckAllEights).2 (by decide)⟩

/-! ## The AI suit choice -/

theorem bestSuit_spec (counts : Suit → Nat) :
    (∀ su, counts su ≤ counts (bestSuit counts)) ∧
    (∀ su, counts su = counts (bestSuit counts) →
      suitIdx su ≤ suitIdx (bestSuit counts)) := by
  unfold bestSuit
  simp only [List.foldl_cons, List.foldl_nil, gt_iff_lt]
  by_cases h1 : counts Suit.diamonds < counts Suit.hearts
  · rw [if_pos h1]
    by_cases h2 : counts Suit.clubs < counts Suit.hearts
    · rw [if_pos h2]
      by_cases h3 : counts Suit.spades < counts Suit.hearts
      · rw [if_pos h3]
        exact ⟨fun su => by cases su <;> omega,
          fun su heq => by cases su <;> simp only [suitIdx] <;> omega⟩
      · rw [if_neg h3]
        exact ⟨fun su => by cases su <;> omega,
          fun su heq => by cases su <;> simp only [suitIdx] <;> omega⟩
    · rw [if_neg h2]
      by_cases h3 : counts Suit.spades < counts Suit.clubs
      · rw [if_pos h3]
        exact ⟨fun su => by cases su <;> omega,
          fun su heq => by cases su <;> simp only [suitIdx] <;> omega⟩
      · rw [if_neg h3]
        exact ⟨fun su => by cases su <;> omega,
          fun su heq => by cases su <;> simp only [suitIdx] <;> omega⟩
  · rw [if_neg h1]
    by_cases h2 : counts Suit.clubs < counts Suit.diamonds
    · rw [if_pos h2]
      by_cases h3 : counts Suit.spades < counts Suit.diamonds
      · rw [if_pos h3]
        exact ⟨fun su => by cases su <;> omega,
          fun su heq => by cases su <;> simp only [suitIdx] <;> omega⟩
      · rw [if_neg h3]
        exact ⟨fun su => by cases su <;> omega,
          fun su heq => by cases su <;> simp only [suitIdx] <;> omega⟩
    · rw [if_neg h2]
      by_cases h3 : counts Suit.spades < counts Suit.clubs
      · rw [if_pos h3]
        exact ⟨fun su => by cases su <;> omega,
          fun su heq => by cases su <;> simp only [suitIdx] <;> omega⟩
      · rw [if_neg h3]
        exact ⟨fun su => by cases su <;> omega,
          fun su heq => by cases su <;> simp only [suitIdx] <;> omega⟩

/-- C3 counterexample: the AI plays its 8 of clubs out of `aiHandTie`; hearts
and diamonds are tied as the most frequent remaining suits and hearts comes
first in the enumeration order, yet the chosen active suit is diamonds: the
`reduce` keeps the accumulator only on a strictly greater count, so a later
tied suit displaces an earlier one. -/
theorem ai_eight_suit_choice_cex :
    aiChosenCard stateAiEight = some (cardOf Suit.clubs Rank.r8) ∧
    suitCounts stateAiEight.aiHand "c8" Suit.hearts =
      suitCounts stateAiEight.aiHand "c8" Suit.diamonds ∧
    (∀ su : Suit, suitCounts stateAiEight.aiHand "c8" su ≤
      suitCounts stateAiEight.aiHand "c8" Suit.hearts) ∧
    (aiMove stateAiEight).1.activeSuit = some Suit.diamonds := by
  decide

/-- C3 (amended): when the AI plays a card of rank 8, the new active suit is
`bestSuit` of the suit counts of its remaining cards (excluding the played 8);
the chosen suit always has a maximal count, and when several suits share the
maximal count the chosen suit is the last maximal one in the fixed enumeration
order hearts, diamonds, clubs, spades. -/
theorem ai_eight_suit_choice (s : GameState) (c : Card)
    (hg : s.currentTurn = Turn.ai ∧ s.status = Status.playing ∧ s.winner = none)
    (hc : aiChosenCard s = some c) (h8 : c.rank = Rank.r8) :
    (aiMove s).1.activeSuit = some (bestSuit (suitCounts s.aiHand c.id)) ∧
    (∀ su, suitCounts s.aiHand c.id su ≤
      suitCounts s.aiHand c.id (bestSuit (suitCounts s.aiHand c.id))) ∧
    (∀ su, suitCounts s.aiHand c.id su =
        suitCounts s.aiHand c.id (bestSuit (suitCounts s.aiHand c.id)) →
      suitIdx su ≤ suitIdx (bestSuit (suitCounts s.aiHand c.id))) := by
  refine ⟨?_, (bestSuit_spec _).1, (bestSuit_spec _).2⟩
  unfold aiMove
  rw [if_pos hg, hc]
  simp only [h8, if_true]
  split <;> rfl

theorem ai_eight_suit_choice_witness :
    aiChosenCard stateAiEight = some (cardOf Suit.clubs Rank.r8) ∧
    (aiMove stateAiEight).1.activeSuit =
      some (bestSuit (suitCounts stateAiEight.aiHand (cardOf Suit.clubs Rank.r8).id)) :=
  ⟨by decide,
    (ai_eight_suit_choice stateAiEight (cardOf Suit.clubs Rank.r8)
      (by decide) (by decide) (by decide)).1⟩

/-! ## The AI turn policy -/

theorem find?_some_decomp {α : Type} (p : α → Bool) :
    ∀ (l : List α) (c : α), l.find? p = some c →
      ∃ l1 l2, l = l1 ++ c :: l2 ∧ p c = true ∧ ∀ x ∈ l1, p x = false := by
  intro l
  induction l with
  | nil => intro c h; cases h
  | cons a t ih =>
    intro c h
    by_cases ha : p a = true
    · rw [List.find?_cons_of_pos _ ha] at h
      obtain rfl : a = c := by injection h
      exact ⟨[], t, rfl, ha, by simp⟩
    · have ha0 : p a = false := by revert ha; cases p a <;> simp
      rw [List.find?_cons_of_neg _ ha] at h
      obtain ⟨l1, l2, rfl, hpc, hl1⟩ := ih c h
      refine ⟨a :: l1, l2, rfl, hpc, ?_⟩
      intro x hx
      rcases List.mem_cons.mp hx with hx | hx
      · exact hx ▸ ha0
      · exact hl1 x hx

theorem aiChosenCard_eq_none (s : GameState) (hc : aiChosenCard s = none) :
    playableCards s = [] := by
  cases hp : playableCards s with
  | nil => rfl
  | cons first rest =>
    exfalso
    have step : aiChosenCard s =
        (match (first :: rest).find? (fun x => decide (x.rank ≠ Rank.r8)) with
          | some c' => some c'
          | none => some first) := by
      unfold aiChosenCard
      rw [hp]
    rw [step] at hc
    cases hf : (first :: rest).find? (fun x => decide (x.rank ≠ Rank.r8)) <;>
      rw [hf] at hc <;> simp at hc

theorem aiChosenCard_selection (s : GameState) (c : Card)
    (hc : aiChosenCard s = some c) :
    c ∈ playableCards s ∧
    ((c.rank ≠ Rank.r8 ∧
        ∃ l1 l2, playableCards s = l1 ++ c :: l2 ∧ ∀ x ∈ l1, x.rank = Rank.r8) ∨
      (c.rank = Rank.r8 ∧ (∀ x ∈ playableCards s, x.rank = Rank.r8) ∧
        (playableCards s).head? = some c)) := by
  cases hp : playableCards s with
  | nil =>
    exfalso
    have step : aiChosenCard s = none := by
      unfold aiChosenCard
      rw [hp]
    rw [step] at hc
    cases hc
  | cons first rest =>
    have step : aiChosenCard s =
        (match (first :: rest).find? (fun x => decide (x.rank ≠ Rank.r8)) with
          | some c' => some c'
          | none => some first) := by
      unfold aiChosenCard
      rw [hp]
    rw [step] at hc
    cases hf : (first :: rest).find? (fun x => decide (x.rank ≠ Rank.r8)) with
    | some c' =>
      rw [hf] at hc
      obtain rfl : c = c' := by
        have h := hc
        injection h with h
        exact h.symm
      obtain ⟨l1, l2, hdecomp, hpc, hl1⟩ := find?_some_decomp _ _ _ hf
      have hc8 : c.rank ≠ Rank.r8 := by simpa using hpc
      refine ⟨?_, Or.inl ⟨hc8, l1, l2, hdecomp, ?_⟩⟩
      · rw [hdecomp]
        simp
      · intro x hx
        simpa using hl1 x hx
    | none =>
      rw [hf] at hc
      obtain rfl : c = first := by
        have h := hc
        injection h with h
        exact h.symm
      have hall : ∀ x ∈ c :: rest, x.rank = Rank.r8 := by
        intro x hx
        have := List.find?_eq_none.mp hf x hx
        simpa using this
      have h8 : c.rank = Rank.r8 := hall c (by simp)
      exact ⟨by simp, Or.inr ⟨h8, hall, rfl⟩⟩

theorem mem_playableCards_valid (s : GameState) (c : Card) (h : c ∈ playableCards s) :
    c ∈ s.aiHand ∧ isValidMove s c = true := by
  unfold playableCards at h
  exact List.mem_filter.mp h

/-- C9: on the AI's turn in playing status, if some card is playable the AI
plays (appends to the discard pile and removes from its hand) the first
non-8 playable card of its hand, or the first playable card when every
playable card is an 8; if no card is playable it draws exactly one card from
a non-empty deck and passes the turn, and with an empty deck it passes the
turn without drawing. -/
theorem ai_turn_policy (s : GameState)
    (hg : s.currentTurn = Turn.ai ∧ s.status = Status.playing ∧ s.winner = none) :
    (∀ c : Card, aiChosenCard s = some c →
      (aiMove s).1.discardPile = s.discardPile ++ [c] ∧
      (aiMove s).1.aiHand = removeById s.aiHand c.id ∧
      ((c.rank ≠ Rank.r8 ∧
          ∃ l1 l2, playableCards s = l1 ++ c :: l2 ∧ ∀ x ∈ l1, x.rank = Rank.r8) ∨
        (c.rank = Rank.r8 ∧ (∀ x ∈ playableCards s, x.rank = Rank.r8) ∧
          (playableCards s).head? = some c))) ∧
    (aiChosenCard s = none →
      (s.deck = [] → (aiMove s).1 = { s with currentTurn := Turn.player }) ∧
      (s.deck ≠ [] →
        (aiMove s).1.aiHand.length = s.aiHand.length + 1 ∧
        (aiMove s).1.deck = s.deck.dropLast ∧
        (aiMove s).1.currentTurn = Turn.player)) := by
  constructor
  · intro c hc
    obtain ⟨hmem, hsel⟩ := aiChosenCard_selection s c hc
    obtain ⟨hhand, hval⟩ := mem_playableCards_valid s c hmem
    refine ⟨?_, ?_, hsel⟩ <;>
      · unfold aiMove
        rw [if_pos hg, hc]
        by_cases h8 : c.rank = Rank.r8
        · simp only [h8, if_true]
          split <;> rfl
        · simp only [h8, if_false]
          unfold playCard
          rw [if_pos hval, if_neg h8]
          simp only [Bool.false_eq_true, if_false]
          split <;> rfl
  · intro hc
    constructor
    · intro hdeck
      unfold aiMove
      rw [if_pos hg, hc, hdeck]
      rfl
    · intro hdeck
      obtain ⟨a, ha⟩ : ∃ a, s.deck.getLast? = some a := by
        cases hd : s.deck.getLast? with
        | none => exact absurd (List.getLast?_eq_none_iff.mp hd) hdeck
        | some a => exact ⟨a, rfl⟩
      unfold aiMove
      rw [if_pos hg, hc, ha]
      refine ⟨?_, rfl, rfl⟩
      show (s.aiHand ++ [a]).length = s.aiHand.length + 1
      simp

theorem ai_turn_policy_witness :
    (aiMove stateAiPlay).1.discardPile =
      stateAiPlay.discardPile ++ [cardOf Suit.spades Rank.r5] ∧
    (aiMove stateAiDraw).1.aiHand.length = stateAiDraw.aiHand.length + 1 :=
  ⟨((ai_turn_policy stateAiPlay (by decide)).1 (cardOf Suit.spades Rank.r5) (by decide)).1,
    (((ai_turn_policy stateAiDraw (by decide)).2 (by decide)).2 (by decide)).1⟩

/-! ## Card conservation -/

theorem createDeck_ids_nodup : (createDeck.map Card.id).Nodup := by decide

theorem createDeck_length : createDeck.length = 52 := by decide

theorem ids_nodup_of_cards_perm (s : GameState) (h : (cards s).Perm createDeck) :
    ((cards s).map Card.id).Nodup :=
  ((h.map Card.id).nodup_iff).mpr createDeck_ids_nodup

theorem playerHand_ids_nodup (s : GameState) (hnd : ((cards s).map Card.id).Nodup) :
    (s.playerHand.map Card.id).Nodup := by
  unfold cards at hnd
  simp only [List.map_append] at hnd
  exact hnd.of_append_left.of_append_right

theorem aiHand_ids_nodup (s : GameState) (hnd : ((cards s).map Card.id).Nodup) :
    (s.aiHand.map Card.id).Nodup := by
  unfold cards at hnd
  simp only [List.map_append] at hnd
  exact hnd.of_append_right

theorem perm_cons_removeById (l : List Card) (c : Card) (hmem : c ∈ l)
    (hnd : (l.map Card.id).Nodup) : l.Perm (c :: removeById l c.id) := by
  induction l with
  | nil => cases hmem
  | cons a t ih =>
    rw [List.map_cons, List.nodup_cons] at hnd
    obtain ⟨hna, hnt⟩ := hnd
    rcases List.mem_cons.mp hmem with rfl | hmem'
    · have hrw : removeById (c :: t) c.id = t := by
        unfold removeById
        rw [List.filter_cons_of_neg (by simp)]
        refine List.filter_eq_self.mpr ?_
        intro x hx
        simp only [decide_eq_true_eq]
        intro hxc
        exact hna (hxc ▸ List.mem_map_of_mem Card.id hx)
      rw [hrw]
    · have hne : ¬ (a.id = c.id) := by
        intro h
        exact hna (h ▸ List.mem_map_of_mem Card.id hmem')
      have hrw : removeById (a :: t) c.id = a :: removeById t c.id := by
        unfold removeById
        rw [List.filter_cons_of_pos (by simpa using hne)]
      rw [hrw]
      exact ((ih hmem' hnt).cons a).trans (List.Perm.swap c a _)

theorem coe_removeById (l : List Card) (c : Card) (hmem : c ∈ l)
    (hnd : (l.map Card.id).Nodup) :
    (l : Multiset Card) = ↑[c] + ↑(removeById l c.id) := by
  rw [Multiset.coe_add, List.singleton_append]
  exact Multiset.coe_eq_coe.mpr (perm_cons_removeById l c hmem hnd)

theorem cards_perm_handleDraw (s : GameState) :
    (cards (handleDraw s)).Perm (cards s) := by
  unfold handleDraw
  split
  · cases hd : s.deck.getLast? with
    | none => exact List.Perm.refl _
    | some a =>
      have hsplit : s.deck.dropLast ++ [a] = s.deck :=
        List.dropLast_append_getLast? a hd
      rw [← Multiset.coe_eq_coe]
      have hm : (↑s.deck : Multiset Card) = ↑s.deck.dropLast + ↑[a] := by
        rw [Multiset.coe_add, hsplit]
      simp only [cards, ← Multiset.coe_add]
      rw [hm]
      abel
  · exact List.Perm.refl _

theorem cards_perm_playCard_player (s : GameState) (card : Card)
    (hmem : card ∈ s.playerHand) (hnd : ((cards s).map Card.id).Nodup) :
    (cards (playCard s card true).1).Perm (cards s) := by
  have hph : (↑s.playerHand : Multiset Card) = ↑[card] + ↑(removeById s.playerHand card.id) :=
    coe_removeById _ _ hmem (playerHand_ids_nodup s hnd)
  unfold playCard
  simp only [eq_self_iff_true, if_true]
  split
  · split
    · rw [← Multiset.coe_eq_coe]
      simp only [cards, ← Multiset.coe_add]
      rw [hph]
      abel
    · split <;>
        (rw [← Multiset.coe_eq_coe]; simp only [cards, ← Multiset.coe_add]; rw [hph]; abel)
  · exact List.Perm.refl _

theorem cards_perm_playCard_ai (s : GameState) (card : Card)
    (hmem : card ∈ s.aiHand) (hnd : ((cards s).map Card.id).Nodup) :
    (cards (playCard s card false).1).Perm (cards s) := by
  have hai : (↑s.aiHand : Multiset Card) = ↑[card] + ↑(removeById s.aiHand card.id) :=
    coe_removeById _ _ hmem (aiHand_ids_nodup s hnd)
  unfold playCard
  simp only [Bool.false_eq_true, if_false]
  split
  · split
    · rw [← Multiset.coe_eq_coe]
      simp only [cards, ← Multiset.coe_add]
      rw [hai]
      abel
    · split <;>
        (rw [← Multiset.coe_eq_coe]; simp only [cards, ← Multiset.coe_add]; rw [hai]; abel)
  · exact List.Perm.refl _

theorem cards_perm_playerPlayIntent (s : GameState) (card : Card)
    (hmem : card ∈ s.playerHand) (hnd : ((cards s).map Card.id).Nodup) :
    (cards (playerPlayIntent s card).1).Perm (cards s) := by
  unfold playerPlayIntent
  split
  · exact cards_perm_playCard_player s card hmem hnd
  · exact List.Perm.refl _

theorem cards_perm_chooseSuitIntent (s : GameState) (suit : Suit) :
    (cards (chooseSuitIntent s suit)).Perm (cards s) := by
  unfold chooseSuitIntent handleSuitSelect
  split <;> exact List.Perm.refl _

theorem cards_perm_aiMove (s : GameState) (hnd : ((cards s).map Card.id).Nodup) :
    (cards (aiMove s).1).Perm (cards s) := by
  unfold aiMove
  split
  · cases hch : aiChosenCard s with
    | some c =>
      have hmem : c ∈ s.aiHand :=
        (mem_playableCards_valid s c (aiChosenCard_selection s c hch).1).1
      have hai : (↑s.aiHand : Multiset Card) = ↑[c] + ↑(removeById s.aiHand c.id) :=
        coe_removeById _ _ hmem (aiHand_ids_nodup s hnd)
      by_cases h8 : c.rank = Rank.r8
      · simp only [h8, if_true]
        split <;>
          (rw [← Multiset.coe_eq_coe]; simp only [cards, ← Multiset.coe_add]; rw [hai]; abel)
      · simp only [h8, if_false]
        exact cards_perm_playCard_ai s c hmem hnd
    | none =>
      cases hd : s.deck.getLast? with
      | none =>
        exact List.Perm.refl _
      | some a =>
        have hsplit : s.deck.dropLast ++ [a] = s.deck :=
          List.dropLast_append_getLast? a hd
        rw [← Multiset.coe_eq_coe]
        have hm : (↑s.deck : Multiset Card) = ↑s.deck.dropLast + ↑[a] := by
          rw [Multiset.coe_add, hsplit]
        simp only [cards, ← Multiset.coe_add]
        rw [hm]
        abel
  · exact List.Perm.refl _

theorem spliceOne_perm : ∀ (F : List Card) (i : Nat),
    ((spliceOne F i).2 ++ (spliceOne F i).1).Perm F := by
  intro F
  induction F with
  | nil => intro i; simp [spliceOne]
  | cons x xs ih =>
    intro i
    cases i with
    | zero =>
      simp only [spliceOne]
      exact List.perm_append_singleton x xs
    | succ n =>
      simp only [spliceOne]
      rw [List.cons_append]
      exact (ih n).cons x

theorem cards_initGame_perm (d : List Card) : (cards (initGame d)).Perm d := by
  rw [← Multiset.coe_eq_coe]
  unfold initGame
  simp only [cards, ← Multiset.coe_add]
  have key : ∀ (F : List Card) (i : Nat),
      ((↑(spliceOne F i).2 + ↑(spliceOne F i).1 : Multiset Card)) = ↑F := by
    intro F i
    rw [Multiset.coe_add]
    exact Multiset.coe_eq_coe.mpr (spliceOne_perm F i)
  rw [key]
  have hd2 : (↑d : Multiset Card) =
      ↑(d.take 8) + (↑((d.drop 8).take 8) + ↑((d.drop 8).drop 8)) := by
    rw [Multiset.coe_add, Multiset.coe_add, List.take_append_drop, List.take_append_drop]
  rw [hd2]
  abel

/-- C6: in every reachable state the deck, discard pile, player hand and AI
hand together hold exactly 52 cards with pairwise distinct identities, and
every transition (draw, play, AI move, suit selection) permutes this
collection, duplicating and losing no card. -/
theorem cards_conservation (s : GameState) (hs : Reachable s) :
    (cards s).length = 52 ∧
    ((cards s).map Card.id).Nodup ∧
    ∀ s', Step s s' → (cards s').Perm (cards s) := by
  have key : ∀ t, Reachable t → (cards t).Perm createDeck := by
    intro t ht
    induction ht with
    | init d hperm => exact (cards_initGame_perm d).trans hperm
    | step t t' ht hstep ih =>
      have hnd := ids_nodup_of_cards_perm t ih
      cases hstep with
      | draw => exact (cards_perm_handleDraw t).trans ih
      | play card hmem => exact (cards_perm_playerPlayIntent t card hmem hnd).trans ih
      | aiTurn => exact (cards_perm_aiMove t hnd).trans ih
      | choose suit => exact (cards_perm_chooseSuitIntent t suit).trans ih
  have hperm := key s hs
  have hnd := ids_nodup_of_cards_perm s hperm
  refine ⟨?_, hnd, ?_⟩
  · rw [hperm.length_eq, createDeck_length]
  · intro s' hstep
    cases hstep with
    | draw => exact cards_perm_handleDraw s
    | play card hmem => exact cards_perm_playerPlayIntent s card hmem hnd
    | aiTurn => exact cards_perm_aiMove s hnd
    | choose suit => exact cards_perm_chooseSuitIntent s suit

theorem cards_conservation_witness :
    (cards (initGame createDeck)).length = 52 ∧
    ((cards (initGame createDeck)).map Card.id).Nodup :=
  ⟨(cards_conservation (initGame createDeck)
      (Reachable.init createDeck (List.Perm.refl _))).1,
    (cards_conservation (initGame createDeck)
      (Reachable.init createDeck (List.Perm.refl _))).2.1⟩

/-! ## Winner and game_over -/

theorem winIff_handleDraw (s : GameState)
    (ih : s.status = Status.game_over ↔ s.winner ≠ none) :
    (handleDraw s).status = Status.game_over ↔ (handleDraw s).winner ≠ none := by
  unfold handleDraw
  split
  · cases s.deck.getLast? <;> exact ih
  · exact ih

theorem winIff_playerPlayIntent (s : GameState) (card : Card)
    (ih : s.status = Status.game_over ↔ s.winner ≠ none) :
    (playerPlayIntent s card).1.status = Status.game_over ↔
      (playerPlayIntent s card).1.winner ≠ none := by
  unfold playerPlayIntent
  split
  case isTrue hg =>
    have hw : s.winner = none := by
      by_contra hw
      have h2 := ih.mpr hw
      rw [hg.2] at h2
      exact Status.noConfusion h2
    unfold playCard
    simp only [eq_self_iff_true, if_true]
    split
    · split
      · simp [hw]
      · split
        · simp
        · simp [hw, hg.2]
    · exact ih
  case isFalse => exact ih

theorem winIff_chooseSuitIntent (s : GameState) (suit : Suit)
    (ih : s.status = Status.game_over ↔ s.winner ≠ none) :
    (chooseSuitIntent s suit).status = Status.game_over ↔
      (chooseSuitIntent s suit).winner ≠ none := by
  unfold chooseSuitIntent handleSuitSelect
  split
  case isTrue hsel =>
    have hw : s.winner = none := by
      by_contra hw
      have h2 := ih.mpr hw
      rw [hsel] at h2
      exact Status.noConfusion h2
    simp [hw]
  case isFalse => exact ih

theorem winIff_aiMove (s : GameState)
    (ih : s.status = Status.game_over ↔ s.winner ≠ none) :
    (aiMove s).1.status = Status.game_over ↔ (aiMove s).1.winner ≠ none := by
  unfold aiMove
  split
  case isTrue hg =>
    cases hch : aiChosenCard s with
    | some c =>
      by_cases h8 : c.rank = Rank.r8
      · simp only [h8, if_true]
        split
        · simp
        · simp [hg.2.1, hg.2.2]
      · simp only [h8, if_false]
        unfold playCard
        simp only [Bool.false_eq_true, if_false]
        split
        · split
          · simp
          · simp [hg.2.1, hg.2.2]
        · exact ih
    | none =>
      cases s.deck.getLast? <;> exact ih
  case isFalse => exact ih

/-- C10: in every reachable state, the status is `game_over` exactly when the
winner is non-null: a winner is recorded only by the win check in the same
update that sets `game_over`, and is never set while the status is anything
else. -/
theorem game_over_iff_winner (s : GameState) (hs : Reachable s) :
    s.status = Status.game_over ↔ s.winner ≠ none := by
  induction hs with
  | init d hperm => simp [initGame]
  | step t t' ht hstep ih =>
    cases hstep with
    | draw => exact winIff_handleDraw t ih
    | play card hmem => exact winIff_playerPlayIntent t card ih
    | aiTurn => exact winIff_aiMove t ih
    | choose suit => exact winIff_chooseSuitIntent t suit ih

theorem game_over_iff_winner_witness :
    ((initGame createDeck).status = Status.game_over ↔
      (initGame createDeck).winner ≠ none) :=
  game_over_iff_winner (initGame createDeck)
    (Reachable.init createDeck (List.Perm.refl _))
